import Mathlib

/-!
Shallow embedding of the color-reduction and barcode-rendering core of
SpectraFilm (`spectrafilm.go`), together with theorems settling the spec
claims about it.

Modelling conventions:
* `uint8` channel values are naturals; all arithmetic in the embedded code
  stays within a byte (sums and means of byte values), so no wraparound is
  modelled.
* `float64` arithmetic on these small integral inputs is modelled exactly
  over `ℚ` (for the HSL conversion) and over `ℕ` with truncating division /
  `Nat.sqrt` (for the averages, where the source truncates via `uint8(...)`
  conversion).
* Fallible code (`panic`, NaN-producing division by zero, undefined
  float→uint8 conversions) is modelled with `Option`.
-/

namespace SpectraFilm

/-- 8-bit RGB color (Go `type RGB [3]uint8`); channel values are bytes 0..255,
represented as naturals (none of the embedded arithmetic overflows a byte). -/
structure RGB where
  r : Nat
  g : Nat
  b : Nat
deriving DecidableEq

instance : Inhabited RGB := ⟨⟨0, 0, 0⟩⟩

/-- Go `type HSL struct { H, S, L float64 }`; the float64 arithmetic of the
conversion is modelled exactly over `ℚ`. -/
structure HSL where
  H : ℚ
  S : ℚ
  L : ℚ
deriving DecidableEq

/-- Go `func (c RGB) ToHSL() HSL`, translated line by line.  Note that the
source feeds the raw byte values 0..255 into the formula (it never divides the
channels by 255), so `L` is on the 0..255 scale and, outside the gray case,
`l < 0.5` is false whenever `max+min ≥ 1`.  In the branch `delta / (2 - mx - mn)`
the source divides float64s (yielding ±Inf when the denominator is 0, without
panicking); `ℚ` division by zero returns 0 there — no claim below depends on
the saturation value at `mx + mn = 2`. -/
def RGB.ToHSL (c : RGB) : HSL :=
  let r : ℚ := c.r
  let g : ℚ := c.g
  let b : ℚ := c.b
  let mx := max (max r g) b
  let mn := min (min r g) b
  -- Luminosity is the average of the max and min rgb color intensities.
  let l := (mx + mn) / 2
  let delta := mx - mn
  if delta = 0 then
    -- it's gray
    ⟨0, 0, l⟩
  else
    let s := if l < 1/2 then delta / (mx + mn) else delta / (2 - mx - mn)
    let r2 := (((mx - r) / 6) + (delta / 2)) / delta
    let g2 := (((mx - g) / 6) + (delta / 2)) / delta
    let b2 := (((mx - b) / 6) + (delta / 2)) / delta
    -- Go `switch`: first matching case wins; `h` starts at 0.
    let h0 := if r = mx then b2 - g2
      else if g = mx then 1/3 + r2 - b2
      else if b = mx then 2/3 + g2 - r2
      else 0
    -- fix wraparounds
    let h := if h0 < 0 then h0 + 1 else if h0 > 1 then h0 - 1 else h0
    ⟨h, s, l⟩

/-- Go `RGBList.Less` compares colors by hue
(`l[i].ToHSL().H < l[j].ToHSL().H`); the order induced by sorting is hue
ascending. -/
def hueLe (a b : RGB) : Prop := a.ToHSL.H ≤ b.ToHSL.H

instance : DecidableRel hueLe := fun a b =>
  inferInstanceAs (Decidable (a.ToHSL.H ≤ b.ToHSL.H))

instance : IsTotal RGB hueLe := ⟨fun a b => le_total a.ToHSL.H b.ToHSL.H⟩

instance : IsTrans RGB hueLe := ⟨fun _ _ _ hab hbc => le_trans hab hbc⟩

/-- `sort.Sort` on an `RGBList` produces a hue-ascending reordering; the order
of equal-hue elements is unspecified in Go (unstable sort), so any hue-sorted
permutation is a faithful model.  We use insertion sort. -/
def hueSort (l : List RGB) : List RGB := List.insertionSort hueLe l

/-- Go `func getAverage(pixels RGBList) RGB` with the global `avgSqr` flag as a
parameter.  Channel sums of byte values are exact in float64; the final
`uint8(math.Floor(x))` resp. `uint8(math.Sqrt(x))` conversions truncate toward
zero, which on naturals is truncating division resp. `Nat.sqrt` of the
truncated mean (for real `x ≥ 0`, `⌊√x⌋ = Nat.sqrt ⌊x⌋`).  On an empty grid the
source computes `0.0/0.0 = NaN` and the uint8 conversion of NaN is unspecified
in Go: modelled as `none`. -/
def getAverage (avgSqr : Bool) (pixels : List RGB) : Option RGB :=
  let total := pixels.length
  if total = 0 then none
  else if avgSqr then -- squared algorithm
    some ⟨Nat.sqrt ((pixels.map fun p => p.r * p.r).sum / total),
          Nat.sqrt ((pixels.map fun p => p.g * p.g).sum / total),
          Nat.sqrt ((pixels.map fun p => p.b * p.b).sum / total)⟩
  else
    some ⟨(pixels.map RGB.r).sum / total,
          (pixels.map RGB.g).sum / total,
          (pixels.map RGB.b).sum / total⟩

/-- Go `func getMedian(pixels RGBList) RGB`: copy the slice, sort the copy by
hue, return the element at index `len(list)/2`.  On an empty list the source
indexes out of range (runtime panic): modelled as `none`. -/
def getMedian (pixels : List RGB) : Option RGB :=
  let list := hueSort pixels
  if list.length = 0 then none
  else some (list.getD (list.length / 2) default)

/-- The number of distinct colors in a grid — the size of `getMode`'s grouping
map (the `Hex()` key is injective on byte channels, so grouping by key is
grouping by exact color). -/
def distinctCount (pixels : List RGB) : Nat := pixels.dedup.length

/-- Go `func getMode(pixels RGBList) RGBList` with dominant-set size `n` (the
global `genMode`):
* group pixels by exact color with occurrence counts (the map `m`; Go map
  iteration order is randomized, we enumerate groups in first-occurrence
  order, one of the permitted orders);
* `sort.Sort(counts)` then `sort.Sort(sort.Reverse(counts))` — net effect:
  descending by count, ties in unspecified order;
* `result := make(RGBList, genMode)` allocates `n` zero colors, and the loop
  `for i < len(counts) && i < genMode` overwrites the first
  `min n (number of groups)` slots with the ranked colors — leaving
  `n - min n groups` zero colors in place;
* `sort.Sort(result)` sorts the result by hue. -/
def getMode (n : Nat) (pixels : List RGB) : List RGB :=
  let counts := pixels.dedup.map fun c => (c, pixels.count c)
  let ranked := List.insertionSort (fun a b => b.2 ≤ a.2) counts
  let result := (ranked.map Prod.fst).take n ++
    List.replicate (n - min n ranked.length) (⟨0, 0, 0⟩ : RGB)
  hueSort result

/-- `getAverage` paired with the final state of its `pixels` argument: the
source loop only reads `p` from the slice and writes the fresh `result`
array, so the argument is unchanged. -/
def getAverageState (avgSqr : Bool) (pixels : List RGB) :
    Option RGB × List RGB :=
  (getAverage avgSqr pixels, pixels)

/-- `getMedian` paired with the final state of its `pixels` argument: the
source sorts `list`, a fresh backing array created by `make` + `copy`, so the
`pixels` slice is never written. -/
def getMedianState (pixels : List RGB) : Option RGB × List RGB :=
  (getMedian pixels, pixels)

/-- `getMode` paired with the final state of its `pixels` argument: the map,
the `counts` slice and the `result` slice are fresh allocations; `pixels` is
only read. -/
def getModeState (n : Nat) (pixels : List RGB) : List RGB × List RGB :=
  (getMode n pixels, pixels)

/-- The raster of an `image.RGBA` under construction: pixel lookup; `none` is
the zero-initialised background of `image.NewRGBA`. -/
def Raster := Nat → Nat → Option RGB

/-- Go `img.Set(x, y, c)` on an image with bounds (0,0)–(w,h): out-of-bounds
writes are silently ignored by `image.RGBA.Set`. -/
def setPixel (w h x y : Nat) (c : RGB) (img : Raster) : Raster :=
  fun px py => if px = x ∧ py = y ∧ x < w ∧ y < h then some c else img px py

/-- An innermost `for x` loop writing color `c` at row `y`, for each x in
`xs` in order. -/
def fillXs (w h : Nat) (xs : List Nat) (y : Nat) (c : RGB) (img : Raster) :
    Raster :=
  xs.foldl (fun im x => setPixel w h x y c im) img

/-- The two inner loops of Go `genLineImage`:
`for i < L { for x < w { img.Set(x, y0 + i, c) } }`. -/
def fillBand (w h L y0 : Nat) (c : RGB) (img : Raster) : Raster :=
  (List.range L).foldl (fun im i => fillXs w h (List.range w) (y0 + i) c im) img

/-- The outer `for y, row := range frames` loop of Go `genLineImage`: the
band of frame index `y` starts at raster row `y * lineHeight`. -/
def drawRows (w h L : Nat) : Nat → List RGB → Raster → Raster
  | _, [], img => img
  | y, c :: rest, img => drawRows w h L (y + 1) rest (fillBand w h L (y * L) c img)

/-- Go `func genLineImage(frames RGBList, filename string)` with image width
`w` and line height `L` (the globals `width` and `lineHeight`): the raster
that is encoded to PNG.  `image.NewRGBA(image.Rect(0, 0, width,
len(frames)*lineHeight))` fixes the bounds. -/
def genLineImage (frames : List RGB) (w L : Nat) : Raster :=
  drawRows w (frames.length * L) L 0 frames (fun _ _ => none)

/-- One frame's row band in Go `genLineColImage`: for each `i < L`, for each
column index `j` with color `col`, fill x ∈ [j*colWidth, j*colWidth+colWidth)
of raster row `y0 + i`. -/
def fillColBand (w h L colWidth y0 : Nat) (row : List RGB) (img : Raster) :
    Raster :=
  (List.range L).foldl (fun im i =>
    row.enum.foldl (fun im2 jc =>
      fillXs w h ((List.range colWidth).map fun t => jc.1 * colWidth + t)
        (y0 + i) jc.2 im2) im) img

/-- The outer loop of Go `genLineColImage`: `colWidth = width / len(row)` is
recomputed per frame; on an empty `row` this is an integer division by zero,
which panics in Go — modelled as `none` for the whole render (the panic
aborts before any image is written out). -/
def drawColRows (w h L : Nat) : Nat → List (List RGB) → Raster → Option Raster
  | _, [], img => some img
  | y, row :: rest, img =>
    if row.length = 0 then none
    else drawColRows w h L (y + 1) rest
      (fillColBand w h L (w / row.length) (y * L) row img)

/-- Go `func genLineColImage(frames []RGBList, filename string)` with image
width `w` and line height `L`. -/
def genLineColImage (frames : List (List RGB)) (w L : Nat) : Option Raster :=
  drawColRows w (frames.length * L) L 0 frames (fun _ _ => none)


/-- Modelled from the SPEC wording only, for the refinement comparison in
claim C2 (the source truncates instead of rounding): per-channel
root-mean-square with round-to-nearest.  For real x = √(s/n),
round x = ⌊x + 1/2⌋ = ⌊(√(4·s/n) + 1)/2⌋ = (Nat.sqrt (4*s/n) + 1) / 2 on
naturals. -/
def specRoundRMS (pixels : List RGB) : Option RGB :=
  let total := pixels.length
  if total = 0 then none
  else
    some ⟨(Nat.sqrt (4 * (pixels.map fun p => p.r * p.r).sum / total) + 1) / 2,
          (Nat.sqrt (4 * (pixels.map fun p => p.g * p.g).sum / total) + 1) / 2,
          (Nat.sqrt (4 * (pixels.map fun p => p.b * p.b).sum / total) + 1) / 2⟩


/-! ## Helper lemmas -/

lemma length_hueSort (l : List RGB) : (hueSort l).length = l.length :=
  List.length_insertionSort hueLe l

lemma hueSort_perm (l : List RGB) : (hueSort l).Perm l :=
  List.perm_insertionSort hueLe l

lemma hueSort_sorted (l : List RGB) : (hueSort l).Sorted hueLe :=
  List.sorted_insertionSort hueLe l

/-- Floor characterization of the truncating division performed by
`uint8(math.Floor(sum / total))` in linear-average mode. -/
lemma div_char (s n q : ℕ) (hn : 0 < n) (hq : q = s / n) :
    q * n ≤ s ∧ s < (q + 1) * n := by
  subst hq
  constructor
  · exact Nat.div_mul_le_self s n
  · have h1 := Nat.div_add_mod s n
    have h2 := Nat.mod_lt s hn
    calc s = n * (s / n) + s % n := h1.symm
    _ < n * (s / n) + n := by omega
    _ = (s / n + 1) * n := by ring

/-- Floor characterization of `uint8(math.Sqrt(sum / total))`: the result is
the greatest integer whose square is at most the mean of squares. -/
lemma sqrt_div_char (s n q : ℕ) (hn : 0 < n) (hq : q = Nat.sqrt (s / n)) :
    q * q * n ≤ s ∧ s < ((q + 1) * (q + 1)) * n := by
  subst hq
  have h1 : Nat.sqrt (s / n) * Nat.sqrt (s / n) ≤ s / n := Nat.sqrt_le (s / n)
  have h2 : s / n < (Nat.sqrt (s / n) + 1) * (Nat.sqrt (s / n) + 1) :=
    Nat.lt_succ_sqrt (s / n)
  constructor
  · calc Nat.sqrt (s / n) * Nat.sqrt (s / n) * n ≤ (s / n) * n :=
      Nat.mul_le_mul_right n h1
    _ ≤ s := Nat.div_mul_le_self s n
  · have h3 : s < (s / n + 1) * n := (div_char s n _ hn rfl).2
    calc s < (s / n + 1) * n := h3
    _ ≤ ((Nat.sqrt (s / n) + 1) * (Nat.sqrt (s / n) + 1)) * n :=
      Nat.mul_le_mul_right n (by omega)

lemma hue_black : (RGB.ToHSL ⟨0,0,0⟩).H = 0 := by
  norm_num [RGB.ToHSL]

lemma hue_red : (RGB.ToHSL ⟨255,0,0⟩).H = 0 := by
  norm_num [RGB.ToHSL, max_def, min_def]

lemma hue_blue : (RGB.ToHSL ⟨0,0,255⟩).H = 2/3 := by
  norm_num [RGB.ToHSL, max_def, min_def]

lemma sqrt_two : Nat.sqrt 2 = 1 := by
  symm; rw [Nat.eq_sqrt]; norm_num

lemma sqrt_ten : Nat.sqrt 10 = 3 := by
  symm; rw [Nat.eq_sqrt]; norm_num

/-- Insertion sort of a constant list is that list. -/
lemma insertionSort_replicate {α : Type} (r : α → α → Prop) [DecidableRel r]
    (n : ℕ) (a : α) :
    List.insertionSort r (List.replicate n a) = List.replicate n a := by
  have hp := List.perm_insertionSort r (List.replicate n a)
  refine List.eq_replicate_iff.mpr ⟨?_, ?_⟩
  · rw [hp.length_eq, List.length_replicate]
  · intro b hb
    exact List.eq_of_mem_replicate (hp.mem_iff.mp hb)

/-- `getMode` on the empty grid returns `genMode` copies of the zero color. -/
lemma getMode_nil (n : ℕ) : getMode n ([] : List RGB) = List.replicate n ⟨0,0,0⟩ := by
  have h1 : getMode n ([] : List RGB) = hueSort (List.replicate n ⟨0,0,0⟩) := by
    simp [getMode]
  rw [h1]
  exact insertionSort_replicate hueLe n _

/-- `getMode` with N = 3 on a single-color grid: the one distinct color plus
two zero-color padding entries. -/
lemma getMode_single : getMode 3 [⟨255,0,0⟩] = [⟨255,0,0⟩, ⟨0,0,0⟩, ⟨0,0,0⟩] := by
  have h1 : getMode 3 [⟨255,0,0⟩] = hueSort [⟨255,0,0⟩, ⟨0,0,0⟩, ⟨0,0,0⟩] := by
    simp [getMode]
  rw [h1]
  simp [hueSort, List.insertionSort, List.orderedInsert, hueLe, hue_red, hue_black]

/-- Bounds for the branch terms of the hue formula: with `0 < d` and
`|x - y| ≤ d`, the quotient `(x-y)/(6d)` lies within `[-1/6, 1/6]`. -/
lemma frac_bounds (x y d : ℚ) (hd : 0 < d) (hx : x - y ≤ d) (hy : y - x ≤ d) :
    -(1/6) ≤ (x - y) / (6 * d) ∧ (x - y) / (6 * d) ≤ 1/6 := by
  constructor
  · rw [le_div_iff₀ (by positivity)]
    nlinarith
  · rw [div_le_iff₀ (by positivity)]
    nlinarith

lemma fillXs_range_apply (w h n y : ℕ) (c : RGB) (img : Raster) (px py : ℕ) :
    fillXs w h (List.range n) y c img px py =
      if px < n ∧ py = y ∧ px < w ∧ py < h then some c else img px py := by
  induction n with
  | zero => simp [fillXs]
  | succ n ih =>
    have hstep : fillXs w h (List.range (n + 1)) y c img =
        setPixel w h n y c (fillXs w h (List.range n) y c img) := by
      unfold fillXs
      rw [List.range_succ, List.foldl_append]
      rfl
    rw [hstep]
    unfold setPixel
    rw [ih]
    split_ifs <;> first | rfl | omega

lemma fillBand_apply (w h L y0 : ℕ) (c : RGB) (img : Raster) (px py : ℕ) :
    fillBand w h L y0 c img px py =
      if y0 ≤ py ∧ py < y0 + L ∧ px < w ∧ py < h then some c else img px py := by
  induction L with
  | zero =>
    rw [if_neg (by omega : ¬ (y0 ≤ py ∧ py < y0 + 0 ∧ px < w ∧ py < h))]
    rfl
  | succ L ih =>
    have hstep : fillBand w h (L + 1) y0 c img =
        fillXs w h (List.range w) (y0 + L) c (fillBand w h L y0 c img) := by
      unfold fillBand
      rw [List.range_succ, List.foldl_append]
      rfl
    rw [hstep, fillXs_range_apply, ih]
    split_ifs <;> first | rfl | omega

/-- Raster rows below the first band of `drawRows` are never written. -/
lemma drawRows_apply_lt (w h L : ℕ) (rows : List RGB) :
    ∀ (y0 : ℕ) (img : Raster) (px py : ℕ), py < y0 * L →
      drawRows w h L y0 rows img px py = img px py := by
  induction rows with
  | nil => intro y0 img px py _; rfl
  | cons c rest ih =>
    intro y0 img px py hpy
    show drawRows w h L (y0 + 1) rest (fillBand w h L (y0 * L) c img) px py = img px py
    have h1 : y0 * L ≤ (y0 + 1) * L := Nat.mul_le_mul_right L (Nat.le_succ y0)
    rw [ih (y0 + 1) _ px py (by omega)]
    rw [fillBand_apply]
    have h2 : ¬ (y0 * L ≤ py ∧ py < y0 * L + L ∧ px < w ∧ py < h) := by
      intro h3
      omega
    rw [if_neg h2]

/-- Inside band `k` of `drawRows` (and inside the image bounds), the raster
holds exactly row `k`'s color. -/
lemma drawRows_apply_band (w h L : ℕ) (rows : List RGB) :
    ∀ (y0 k : ℕ) (img : Raster) (px py : ℕ),
      k < rows.length → (y0 + k) * L ≤ py → py < (y0 + k) * L + L →
      px < w → py < h →
      drawRows w h L y0 rows img px py = some (rows.getD k default) := by
  induction rows with
  | nil =>
    intro y0 k img px py hk hlo hhi hw hh
    simp at hk
  | cons c rest ih =>
    intro y0 k img px py hk hlo hhi hw hh
    show drawRows w h L (y0 + 1) rest (fillBand w h L (y0 * L) c img) px py = _
    match k with
    | 0 =>
      have hlt : py < (y0 + 1) * L := by
        have he : (y0 + 0) * L + L = (y0 + 1) * L := by ring
        omega
      rw [drawRows_apply_lt w h L rest (y0 + 1) _ px py hlt]
      rw [fillBand_apply]
      have hcond : y0 * L ≤ py ∧ py < y0 * L + L ∧ px < w ∧ py < h := by
        have he : (y0 + 0) * L = y0 * L := by ring
        refine ⟨by omega, by omega, hw, hh⟩
      rw [if_pos hcond]
      rfl
    | k' + 1 =>
      have he : (y0 + 1 + k') * L = (y0 + (k' + 1)) * L := by ring
      have hres := ih (y0 + 1) k' (fillBand w h L (y0 * L) c img) px py
        (by simpa using Nat.lt_of_succ_lt_succ hk) (by omega) (by omega) hw hh
      rw [hres]
      rfl

/-- Pixels outside the raster bounds are never written by `drawRows`. -/
lemma drawRows_apply_out (w h L : ℕ) (rows : List RGB) :
    ∀ (y0 : ℕ) (img : Raster) (px py : ℕ), (w ≤ px ∨ h ≤ py) →
      img px py = none → drawRows w h L y0 rows img px py = none := by
  induction rows with
  | nil => intro y0 img px py _ himg; exact himg
  | cons c rest ih =>
    intro y0 img px py hout himg
    show drawRows w h L (y0 + 1) rest (fillBand w h L (y0 * L) c img) px py = none
    refine ih (y0 + 1) _ px py hout ?_
    rw [fillBand_apply]
    have hng : ¬ (y0 * L ≤ py ∧ py < y0 * L + L ∧ px < w ∧ py < h) := by
      intro h3
      omega
    rw [if_neg hng]
    exact himg

/-- `genLineColImage` fails (the Go code panics on `width / 0`) as soon as one
frame's palette is empty. -/
lemma drawColRows_none (w h L : ℕ) (frames : List (List RGB)) :
    ∀ (y0 : ℕ) (img : Raster), (∃ row ∈ frames, row = []) →
      drawColRows w h L y0 frames img = none := by
  induction frames with
  | nil =>
    intro y0 img hex
    obtain ⟨row, hmem, _⟩ := hex
    simp at hmem
  | cons row rest ih =>
    intro y0 img hex
    obtain ⟨r0, hmem, hr0⟩ := hex
    simp only [drawColRows]
    by_cases hrow : row.length = 0
    · rw [if_pos hrow]
    · rw [if_neg hrow]
      rcases List.mem_cons.mp hmem with h | h
      · exact absurd (by rw [← h, hr0]; rfl : row.length = 0) hrow
      · exact ih (y0 + 1) _ ⟨r0, h, hr0⟩

/-- `genLineColImage` succeeds when every frame's palette is non-empty. -/
lemma drawColRows_isSome (w h L : ℕ) (frames : List (List RGB)) :
    ∀ (y0 : ℕ) (img : Raster), (∀ row ∈ frames, row ≠ []) →
      (drawColRows w h L y0 frames img).isSome := by
  induction frames with
  | nil => intro y0 img _; rfl
  | cons row rest ih =>
    intro y0 img hall
    simp only [drawColRows]
    have hrow : ¬ row.length = 0 := by
      have hne := hall row (List.mem_cons_self row rest)
      simpa [List.length_eq_zero] using hne
    rw [if_neg hrow]
    exact ih (y0 + 1) _ (fun r hr => hall r (List.mem_cons_of_mem row hr))

/-! ## Claim theorems -/

/-- Claim C1, counterexample: `getMode` with N = 3 on the single-color grid
`[red]` yields a sequence of length 3 with duplicated entries, not
`min(N, distinctColorCount) = 1` — the claimed length and no-duplicates
properties both fail (`make(RGBList, genMode)` pads with the zero color). -/
theorem claim_C1_cex :
    (getMode 3 [⟨255,0,0⟩]).length = 3 ∧ ¬ (getMode 3 [⟨255,0,0⟩]).Nodup ∧
    distinctCount [⟨255,0,0⟩] = 1 := by
  rw [getMode_single]
  exact ⟨rfl, by decide, by decide⟩

/-- Claim C1, amended: for every grid and every configured size N, `getMode`
returns a sequence of length exactly N (not `min(N, distinct)`), sorted by hue
ascending; whenever the grid has fewer than N distinct colors the sequence
contains the zero color `{0,0,0}` as padding (so duplicates occur as soon as
the padding is at least two entries, and a single-color grid yields N
elements, not one). -/
theorem claim_C1_amended (n : ℕ) (ps : List RGB) :
    (getMode n ps).length = n ∧ (getMode n ps).Sorted hueLe ∧
    (distinctCount ps < n → (⟨0,0,0⟩ : RGB) ∈ getMode n ps) := by
  have hgm : getMode n ps =
      hueSort (((List.insertionSort (fun a b => b.2 ≤ a.2)
          (ps.dedup.map fun c => (c, ps.count c))).map Prod.fst).take n ++
        List.replicate (n - min n (List.insertionSort (fun a b => b.2 ≤ a.2)
          (ps.dedup.map fun c => (c, ps.count c))).length) ⟨0,0,0⟩) := rfl
  have hrl : (List.insertionSort (fun a b => b.2 ≤ a.2)
      (ps.dedup.map fun c => (c, ps.count c))).length = ps.dedup.length := by
    rw [List.length_insertionSort, List.length_map]
  refine ⟨?_, ?_, ?_⟩
  · rw [hgm, length_hueSort]
    simp only [List.length_append, List.length_take, List.length_map,
      List.length_replicate, hrl]
    omega
  · rw [hgm]; exact hueSort_sorted _
  · intro hd
    rw [hgm]
    refine (hueSort_perm _).mem_iff.mpr ?_
    refine List.mem_append.mpr (Or.inr ?_)
    refine List.mem_replicate.mpr ⟨?_, rfl⟩
    have hdc : distinctCount ps = ps.dedup.length := rfl
    omega

/-- Claim C1, witness: on the single-color grid `[red]` with N = 3 the padding
color is present in the dominant set. -/
theorem claim_C1_witness :
    (⟨0,0,0⟩ : RGB) ∈ getMode 3 [⟨255,0,0⟩] :=
  (claim_C1_amended 3 [⟨255,0,0⟩]).2.2 (by decide)

/-- Claim C2, counterexample: on the grid `[(1,1,1), (2,2,2)]` the mean of
squares is 5/2 and √2.5 ≈ 1.58; the source truncates to 1 while the spec's
round-to-nearest policy yields 2. -/
theorem claim_C2_cex :
    getAverage true [⟨1,1,1⟩, ⟨2,2,2⟩] = some ⟨1,1,1⟩ ∧
    specRoundRMS [⟨1,1,1⟩, ⟨2,2,2⟩] = some ⟨2,2,2⟩ ∧
    getAverage true [⟨1,1,1⟩, ⟨2,2,2⟩] ≠ specRoundRMS [⟨1,1,1⟩, ⟨2,2,2⟩] := by
  have e1 : getAverage true [⟨1,1,1⟩, ⟨2,2,2⟩] = some ⟨1,1,1⟩ := by
    norm_num [getAverage, sqrt_two]
  have e2 : specRoundRMS [⟨1,1,1⟩, ⟨2,2,2⟩] = some ⟨2,2,2⟩ := by
    norm_num [specRoundRMS, sqrt_ten]
  exact ⟨e1, e2, by rw [e1, e2]; simp⟩

/-- Claim C2, amended: quadratic-mode average computes, per channel, the sum
of squared channel values divided by the pixel count and takes the square
root, but the final `uint8` conversion truncates toward zero rather than
rounding to nearest: each result channel `q` is the greatest integer with
`q² ≤ sumOfSquares / count` (stated below as `q²·count ≤ sumOfSquares <
(q+1)²·count`). -/
theorem claim_C2_amended (ps : List RGB) (hps : ps ≠ []) :
    ∃ q, getAverage true ps = some q ∧
      ((q.r * q.r) * ps.length ≤ (ps.map fun p => p.r * p.r).sum ∧
        (ps.map fun p => p.r * p.r).sum < ((q.r + 1) * (q.r + 1)) * ps.length) ∧
      ((q.g * q.g) * ps.length ≤ (ps.map fun p => p.g * p.g).sum ∧
        (ps.map fun p => p.g * p.g).sum < ((q.g + 1) * (q.g + 1)) * ps.length) ∧
      ((q.b * q.b) * ps.length ≤ (ps.map fun p => p.b * p.b).sum ∧
        (ps.map fun p => p.b * p.b).sum < ((q.b + 1) * (q.b + 1)) * ps.length) := by
  have hn : 0 < ps.length := List.length_pos.mpr hps
  refine ⟨⟨Nat.sqrt ((ps.map fun p => p.r * p.r).sum / ps.length),
      Nat.sqrt ((ps.map fun p => p.g * p.g).sum / ps.length),
      Nat.sqrt ((ps.map fun p => p.b * p.b).sum / ps.length)⟩, ?_,
    sqrt_div_char _ _ _ hn rfl, sqrt_div_char _ _ _ hn rfl,
    sqrt_div_char _ _ _ hn rfl⟩
  simp [getAverage, hps]

/-- Claim C2, witness: the amended statement evaluated on `[(1,1,1),(2,2,2)]`
(sum of squares 5, count 2). -/
theorem claim_C2_witness :
    ∃ q, getAverage true [⟨1,1,1⟩, ⟨2,2,2⟩] = some q ∧
      ((q.r * q.r) * 2 ≤ 5 ∧ 5 < ((q.r + 1) * (q.r + 1)) * 2) ∧
      ((q.g * q.g) * 2 ≤ 5 ∧ 5 < ((q.g + 1) * (q.g + 1)) * 2) ∧
      ((q.b * q.b) * 2 ≤ 5 ∧ 5 < ((q.b + 1) * (q.b + 1)) * 2) := by
  have h := claim_C2_amended [⟨1,1,1⟩, ⟨2,2,2⟩] (by decide)
  simpa using h

/-- Claim C3, counterexample: `ToHSL` never normalizes the channels to [0,1]:
on white the (achromatic) lightness is 255, far outside [0,1], and on pure red
the saturation `255 / (2 - 255)` is negative, outside [0,1]. -/
theorem claim_C3_cex :
    (RGB.ToHSL ⟨255,255,255⟩).L = 255 ∧ ¬ ((RGB.ToHSL ⟨255,255,255⟩).L ≤ 1) ∧
    (RGB.ToHSL ⟨255,0,0⟩).S < 0 := by
  refine ⟨?_, ?_, ?_⟩ <;> norm_num [RGB.ToHSL, max_def, min_def]

/-- Claim C3, amended: `ToHSL` returns hue in [0,1) for every color, and in
the achromatic case (all channels equal, i.e. max = min) returns saturation 0,
hue 0, and lightness `(max+min)/2` over the RAW 0..255 channel values (not
normalized to [0,1]), with no division by zero; saturation and lightness are
NOT confined to [0,1] in general. -/
theorem claim_C3_amended (c : RGB) :
    (0 ≤ c.ToHSL.H ∧ c.ToHSL.H < 1) ∧
    (c.r = c.g → c.g = c.b → c.ToHSL = ⟨0, 0, (c.r : ℚ)⟩) := by
  obtain ⟨cr, cg, cb⟩ := c
  constructor
  · simp only [RGB.ToHSL]
    set r : ℚ := (cr : ℚ) with hr
    set g : ℚ := (cg : ℚ) with hg
    set b : ℚ := (cb : ℚ) with hb
    set mx := max (max r g) b with hmx
    set mn := min (min r g) b with hmn
    have hmxr : r ≤ mx := le_trans (le_max_left r g) (le_max_left _ b)
    have hmxg : g ≤ mx := le_trans (le_max_right r g) (le_max_left _ b)
    have hmxb : b ≤ mx := le_max_right _ b
    have hmnr : mn ≤ r := le_trans (min_le_left (min r g) b) (min_le_left r g)
    have hmng : mn ≤ g := le_trans (min_le_left (min r g) b) (min_le_right r g)
    have hmnb : mn ≤ b := min_le_right (min r g) b
    by_cases hdelta : mx - mn = 0
    · rw [if_pos hdelta]
      norm_num
    · rw [if_neg hdelta]
      have hd : 0 < mx - mn := lt_of_le_of_ne (by linarith) (Ne.symm hdelta)
      dsimp only
      by_cases h1 : r = mx
      · rw [if_pos h1]
        have he : (((mx - b) / 6) + ((mx - mn) / 2)) / (mx - mn) -
            (((mx - g) / 6) + ((mx - mn) / 2)) / (mx - mn) =
            (g - b) / (6 * (mx - mn)) := by
          field_simp
          ring
        rw [he]
        obtain ⟨hlo, hhi⟩ := frac_bounds g b (mx - mn) hd (by linarith) (by linarith)
        split_ifs with hneg hbig
        · constructor <;> linarith
        · constructor <;> linarith
        · constructor <;> linarith
      · rw [if_neg h1]
        by_cases h2 : g = mx
        · rw [if_pos h2]
          have he : 1/3 + (((mx - r) / 6) + ((mx - mn) / 2)) / (mx - mn) -
              (((mx - b) / 6) + ((mx - mn) / 2)) / (mx - mn) =
              1/3 + (b - r) / (6 * (mx - mn)) := by
            field_simp
            ring
          rw [he]
          obtain ⟨hlo, hhi⟩ := frac_bounds b r (mx - mn) hd (by linarith) (by linarith)
          split_ifs with hneg hbig
          · constructor <;> linarith
          · constructor <;> linarith
          · constructor <;> linarith
        · rw [if_neg h2]
          by_cases h3 : b = mx
          · rw [if_pos h3]
            have he : 2/3 + (((mx - g) / 6) + ((mx - mn) / 2)) / (mx - mn) -
                (((mx - r) / 6) + ((mx - mn) / 2)) / (mx - mn) =
                2/3 + (r - g) / (6 * (mx - mn)) := by
              field_simp
              ring
            rw [he]
            obtain ⟨hlo, hhi⟩ := frac_bounds r g (mx - mn) hd (by linarith) (by linarith)
            split_ifs with hneg hbig
            · constructor <;> linarith
            · constructor <;> linarith
            · constructor <;> linarith
          · rw [if_neg h3]
            norm_num
  · intro h1 h2
    simp only at h1 h2
    subst h1
    subst h2
    simp only [RGB.ToHSL]
    norm_num

/-- Claim C3, witness: the amended statement evaluated on the gray color
(7,7,7): hue bounds hold and the achromatic branch returns lightness 7. -/
theorem claim_C3_witness :
    (0 ≤ (RGB.ToHSL ⟨7,7,7⟩).H ∧ (RGB.ToHSL ⟨7,7,7⟩).H < 1) ∧
    RGB.ToHSL ⟨7,7,7⟩ = ⟨0, 0, ((7 : ℕ) : ℚ)⟩ :=
  ⟨(claim_C3_amended ⟨7,7,7⟩).1, (claim_C3_amended ⟨7,7,7⟩).2 rfl rfl⟩

/-- Claim C4, counterexample: on the zero-pixel grid the dominant-set
reduction does not fail with an `EmptyFrame` error — it succeeds and returns
default (zero) colors — and the median reduction panics (out-of-range index,
modelled `none`) instead of returning an error value. -/
theorem claim_C4_cex :
    getMode 2 ([] : List RGB) = [⟨0,0,0⟩, ⟨0,0,0⟩] ∧
    getMedian ([] : List RGB) = none :=
  ⟨by rw [getMode_nil]; rfl, rfl⟩

/-- Claim C4, amended: no reduction signals an `EmptyFrame` error (no such
error exists in the code).  On the zero-pixel grid `getMedian` panics with an
out-of-range index and `getAverage` divides 0.0 by 0.0 (NaN; undefined uint8
conversion) — both modelled as `none` — while `getMode` succeeds and returns
`genMode` copies of the zero color. -/
theorem claim_C4_amended :
    getMedian ([] : List RGB) = none ∧
    getAverage true ([] : List RGB) = none ∧
    getAverage false ([] : List RGB) = none ∧
    ∀ n : ℕ, getMode n ([] : List RGB) = List.replicate n ⟨0,0,0⟩ :=
  ⟨rfl, rfl, rfl, getMode_nil⟩

/-- Claim C5, counterexample: a single frame with an empty palette makes
`genLineColImage` divide the width by zero (`width / len(row)`), a runtime
panic in Go — the render fails instead of producing a background-only band. -/
theorem claim_C5_cex : genLineColImage [[]] 4 1 = none := rfl

/-- Claim C5, amended: `genLineColImage` does NOT handle an empty per-frame
palette: any frame with an empty dominant set aborts the whole render with a
division-by-zero panic (modelled as `none`); the render succeeds exactly when
every frame's palette is non-empty.  (In the actual pipeline `getMode` always
returns length `genMode > 0`, so the panic is latent.) -/
theorem claim_C5_amended (frames : List (List RGB)) (w L : ℕ) :
    ((∃ row ∈ frames, row = []) → genLineColImage frames w L = none) ∧
    ((∀ row ∈ frames, row ≠ []) → (genLineColImage frames w L).isSome) :=
  ⟨fun hex => drawColRows_none w (frames.length * L) L frames 0 _ hex,
   fun hall => drawColRows_isSome w (frames.length * L) L frames 0 _ hall⟩

/-- Claim C5, witness: a concrete two-frame input with an empty second palette
fails, and the same input without the empty palette succeeds. -/
theorem claim_C5_witness :
    genLineColImage [[⟨1,2,3⟩], []] 4 1 = none ∧
    (genLineColImage [[⟨1,2,3⟩]] 4 1).isSome :=
  ⟨(claim_C5_amended [[⟨1,2,3⟩], []] 4 1).1 ⟨[], by decide, rfl⟩,
   (claim_C5_amended [[⟨1,2,3⟩]] 4 1).2 (by decide)⟩

/-- Claim C6, confirmed: linear-mode average equals, per channel, the floor of
the channel sum divided by the pixel count (stated as `q·count ≤ sum <
(q+1)·count`), and on the 2×2 grid [white, white, black, black] it returns
(127,127,127).  Determinism is definitional: the embedded reduction is a pure
function of the pixel list. -/
theorem claim_C6_linear_average :
    (∀ (ps : List RGB), ps ≠ [] → ∃ q, getAverage false ps = some q ∧
      (q.r * ps.length ≤ (ps.map RGB.r).sum ∧
        (ps.map RGB.r).sum < (q.r + 1) * ps.length) ∧
      (q.g * ps.length ≤ (ps.map RGB.g).sum ∧
        (ps.map RGB.g).sum < (q.g + 1) * ps.length) ∧
      (q.b * ps.length ≤ (ps.map RGB.b).sum ∧
        (ps.map RGB.b).sum < (q.b + 1) * ps.length)) ∧
    getAverage false [⟨255,255,255⟩, ⟨255,255,255⟩, ⟨0,0,0⟩, ⟨0,0,0⟩] =
      some ⟨127,127,127⟩ := by
  constructor
  · intro ps hps
    have hn : 0 < ps.length := List.length_pos.mpr hps
    refine ⟨⟨(ps.map RGB.r).sum / ps.length, (ps.map RGB.g).sum / ps.length,
        (ps.map RGB.b).sum / ps.length⟩, ?_,
      div_char _ _ _ hn rfl, div_char _ _ _ hn rfl, div_char _ _ _ hn rfl⟩
    simp [getAverage, hps]
  · decide

/-- Claim C6, witness: the floor characterization evaluated on the concrete
grid `[(10,20,30), (20,40,50)]` (channel sums 30, 60, 80; count 2). -/
theorem claim_C6_witness :
    ∃ q, getAverage false [⟨10,20,30⟩, ⟨20,40,50⟩] = some q ∧
      (q.r * 2 ≤ 30 ∧ 30 < (q.r + 1) * 2) ∧
      (q.g * 2 ≤ 60 ∧ 60 < (q.g + 1) * 2) ∧
      (q.b * 2 ≤ 80 ∧ 80 < (q.b + 1) * 2) := by
  have h := claim_C6_linear_average.1 [⟨10,20,30⟩, ⟨20,40,50⟩] (by decide)
  simpa using h

/-- Claim C7, confirmed: for every non-empty grid, `getMedian` returns exactly
the element at index ⌊count/2⌋ of the pixels sorted by hue ascending — hence
always a color present in the input grid, never a blended color. -/
theorem claim_C7_median (ps : List RGB) (hps : ps ≠ []) :
    ∃ c, getMedian ps = some c ∧ c ∈ ps ∧
      c = (hueSort ps).getD (ps.length / 2) default ∧
      (hueSort ps).Sorted hueLe := by
  have hn : 0 < ps.length := List.length_pos.mpr hps
  have hlen : (hueSort ps).length = ps.length := length_hueSort ps
  have hne : ¬ (hueSort ps).length = 0 := by omega
  refine ⟨(hueSort ps).getD ((hueSort ps).length / 2) default, ?_, ?_, ?_,
    hueSort_sorted ps⟩
  · simp [getMedian, hne]
  · have hidx : (hueSort ps).length / 2 < (hueSort ps).length := by omega
    have hmem : (hueSort ps).getD ((hueSort ps).length / 2) default ∈ hueSort ps := by
      rw [List.getD_eq_getElem _ _ hidx]
      exact List.getElem_mem hidx
    exact (hueSort_perm ps).mem_iff.mp hmem
  · rw [hlen]

/-- Claim C7, witness: on the grid `[red, blue]` the median is the
upper-middle element (index 1) of the hue-sorted pixels and belongs to the
grid. -/
theorem claim_C7_witness :
    ∃ c, getMedian [⟨255,0,0⟩, ⟨0,0,255⟩] = some c ∧
      c ∈ [⟨255,0,0⟩, ⟨0,0,255⟩] ∧
      c = (hueSort [⟨255,0,0⟩, ⟨0,0,255⟩]).getD 1 default ∧
      (hueSort [⟨255,0,0⟩, ⟨0,0,255⟩]).Sorted hueLe := by
  have h := claim_C7_median [⟨255,0,0⟩, ⟨0,0,255⟩] (by decide)
  simpa using h

/-- Claim C8, confirmed: `genLineImage` produces a raster in which, for every
frame index i, every pixel with x < W in raster rows i·L .. i·L+L-1 equals
`frames[i]` exactly, and every pixel outside the W × (frameCount·L) bounds is
untouched background. -/
theorem claim_C8_line_image (frames : List RGB) (w L : ℕ) :
    (∀ i j x, i < frames.length → j < L → x < w →
      genLineImage frames w L x (i * L + j) = some (frames.getD i default)) ∧
    (∀ px py, w ≤ px ∨ frames.length * L ≤ py →
      genLineImage frames w L px py = none) := by
  constructor
  · intro i j x hi hj hx
    have he : (0 + i) * L = i * L := by ring
    refine drawRows_apply_band w (frames.length * L) L frames 0 i _ x (i * L + j)
      hi (by omega) (by omega) hx ?_
    have h1 : (i + 1) * L ≤ frames.length * L := Nat.mul_le_mul_right L (by omega)
    have h2 : (i + 1) * L = i * L + L := by ring
    omega
  · intro px py hout
    exact drawRows_apply_out w (frames.length * L) L frames 0 _ px py hout rfl

/-- Claim C8, witness: a 2-frame, width-3, line-height-2 image: row 2 carries
the second frame's color, row 0 the first frame's, and x = 3 is out of
bounds. -/
theorem claim_C8_witness :
    genLineImage [⟨1,2,3⟩, ⟨4,5,6⟩] 3 2 0 2 = some ⟨4,5,6⟩ ∧
    genLineImage [⟨1,2,3⟩, ⟨4,5,6⟩] 3 2 0 0 = some ⟨1,2,3⟩ ∧
    genLineImage [⟨1,2,3⟩, ⟨4,5,6⟩] 3 2 3 0 = none := by
  refine ⟨?_, ?_, ?_⟩
  · exact (claim_C8_line_image [⟨1,2,3⟩, ⟨4,5,6⟩] 3 2).1 1 0 0 (by decide) (by decide)
      (by decide)
  · exact (claim_C8_line_image [⟨1,2,3⟩, ⟨4,5,6⟩] 3 2).1 0 0 0 (by decide) (by decide)
      (by decide)
  · exact (claim_C8_line_image [⟨1,2,3⟩, ⟨4,5,6⟩] 3 2).2 3 0 (by decide)

/-- Claim C9, confirmed: on a grid whose pixels are all the same color, the
quadratic-mode average equals that color exactly and agrees with the
linear-mode average. -/
theorem claim_C9_uniform (c : RGB) (n : ℕ) (hn : 0 < n) :
    getAverage true (List.replicate n c) = some c ∧
    getAverage false (List.replicate n c) = some c := by
  have hlen : (List.replicate n c).length = n := List.length_replicate n c
  have h0 : ¬ n = 0 := by omega
  constructor
  · simp [getAverage, hlen, h0, List.map_replicate, List.sum_replicate, smul_eq_mul,
      Nat.mul_div_cancel_left _ hn, Nat.sqrt_eq]
  · simp [getAverage, hlen, h0, List.map_replicate, List.sum_replicate, smul_eq_mul,
      Nat.mul_div_cancel_left _ hn]

/-- Claim C9, witness: both averaging modes on three copies of (10,20,30)
return (10,20,30). -/
theorem claim_C9_witness :
    getAverage true (List.replicate 3 ⟨10,20,30⟩) = some ⟨10,20,30⟩ ∧
    getAverage false (List.replicate 3 ⟨10,20,30⟩) = some ⟨10,20,30⟩ :=
  claim_C9_uniform ⟨10,20,30⟩ 3 (by decide)

/-- Claim C10, confirmed: each reduction leaves its pixel-list argument
unchanged.  In the embedding the post-call state of the `pixels` slice is
returned explicitly by the `...State` wrappers; it equals the input because
the source only reads `pixels` (`getAverage`, `getMode`) or sorts a fresh
`make`+`copy` array (`getMedian`). -/
theorem claim_C10_pure (sq : Bool) (n : ℕ) (ps : List RGB) :
    (getAverageState sq ps).2 = ps ∧ (getMedianState ps).2 = ps ∧
    (getModeState n ps).2 = ps :=
  ⟨rfl, rfl, rfl⟩

end SpectraFilm
